import Mathlib

/-!
Verification development for a log-structured key-value store
(an append-only JSON command log with an in-memory key index,
size-triggered compaction, and a binary TCP wire protocol).

The development is a shallow embedding of the Rust sources:

* src/kvs.rs       : KvStore (open / get / set / remove / compact),
                     BufWriterWithPos, BufReaderWithPos
* src/commands.rs,
  src/client_commands.rs : the Command type and the bincode wire codec
* src/response.rs  : the Response type
* src/server_commands.rs : the per-connection dispatcher
* src/kvs_error.rs : the error enum

Rust strings are modelled as their UTF-8 byte lists (List Nat).  The log
file is a byte list; the on-disk codec is serde_json's canonical output
for the Command enum (struct-variant objects, strings escaped exactly as
serde_json escapes them), and the stream decoder is a parser for that
canonical form which reports the bytes remaining after one value, which
is how serde_json's StreamDeserializer byte offsets are modelled.

File-handle state is modelled explicitly: writerPos is
BufWriterWithPos.position, readerPos is BufReaderWithPos.position
(updated only by seeks, exactly as in the source, where all reads bypass
the wrapper), and fileCursor is the operating-system read cursor of the
reader's underlying File handle (moved by the direct get_ref/get_mut
reads and by seeks).  The writer's file handle is opened in append mode,
so written bytes always land at end-of-file regardless of writerPos.
-/

set_option maxHeartbeats 1000000

/-- A Rust String, modelled as its UTF-8 byte sequence. -/
abbrev Str := List Nat

/-- Byte list of an ASCII Lean string literal; used to write keys, values
and JSON syntax fragments readably. -/
def str (s : String) : Str := s.toList.map Char.toNat

/-- The command enum of src/client_commands.rs (re-exported as crate::Command
and persisted to the log by the engine). -/
inductive Command
  | Set (key value : Str)
  | Get (key : Str)
  | Rm (key : Str)
  | Open (path : Str)
deriving DecidableEq, Repr

/-- The position record of src/client_commands.rs: byte range of a record
in the log file. -/
structure CommandPosition where
  start : Nat
  length : Nat
deriving DecidableEq, Repr

/-- The error enum of src/kvs_error.rs (payloads dropped). -/
inductive KvStoreError
  | IoError
  | SerdeSerError
  | No
  | KeyNotFound
  | InvalidLogFileCommand
  | InvalidFile
  | BincodeError
deriving DecidableEq, Repr

/-- The response enum of src/response.rs. -/
inductive Response
  | GetOk (value : Str)
  | SetOk
  | RmOk
  | Error (msg : Str)
deriving DecidableEq, Repr

/-! ### On-disk record codec (serde_json) -/

/-- Lowercase hex digit byte, as serde_json emits in \u escapes. -/
def hexDig (n : Nat) : Nat := if n < 10 then 48 + n else 87 + n

/-- serde_json's escaping of one string byte: quote and backslash get
two-byte escapes, the named control characters get \b \t \n \f \r, other
control characters get \u00XX with lowercase hex, everything else
(including non-ASCII UTF-8 bytes) passes through unchanged. -/
def escByte (b : Nat) : List Nat :=
  if b = 34 then [92, 34]
  else if b = 92 then [92, 92]
  else if b = 8 then [92, 98]
  else if b = 9 then [92, 116]
  else if b = 10 then [92, 110]
  else if b = 12 then [92, 102]
  else if b = 13 then [92, 114]
  else if b < 32 then [92, 117, 48, 48, hexDig (b / 16), hexDig (b % 16)]
  else [b]

def escapeStr (s : Str) : List Nat := (s.map escByte).flatten

/-- serde_json encoding of a string: quote, escaped bytes, quote. -/
def encStr (s : Str) : List Nat := 34 :: (escapeStr s ++ [34])

/-- serde_json encoding of one Command record, e.g.
Set produces \x7b"Set":\x7b"key":K,"value":V\x7d\x7d with K, V encoded
strings (struct-variant external tagging, fields in declaration order,
no whitespace). -/
def encodeCmd : Command → List Nat
  | .Set k v =>
      str "\x7b\"Set\":\x7b\"key\":" ++ encStr k ++ str ",\"value\":" ++ encStr v ++ str "\x7d\x7d"
  | .Get k =>
      str "\x7b\"Get\":\x7b\"key\":" ++ encStr k ++ str "\x7d\x7d"
  | .Rm k =>
      str "\x7b\"Rm\":\x7b\"key\":" ++ encStr k ++ str "\x7d\x7d"
  | .Open p =>
      str "\x7b\"Open\":\x7b\"path\":" ++ encStr p ++ str "\x7d\x7d"

/-- JSON insignificant whitespace, skipped by the stream deserializer
between values. -/
def skipWs : List Nat → List Nat
  | [] => []
  | b :: bs => if b = 32 ∨ b = 9 ∨ b = 10 ∨ b = 13 then skipWs bs else b :: bs

/-- Match an expected literal byte sequence, returning the remainder. -/
def parseLit : List Nat → List Nat → Option (List Nat)
  | [], bs => some bs
  | _ :: _, [] => none
  | l :: ls, b :: bs => if b = l then parseLit ls bs else none

/-- Value of one hex digit byte (accepting both cases, as JSON does). -/
def hexVal (b : Nat) : Option Nat :=
  if 48 ≤ b ∧ b ≤ 57 then some (b - 48)
  else if 97 ≤ b ∧ b ≤ 102 then some (b - 87)
  else if 65 ≤ b ∧ b ≤ 70 then some (b - 55)
  else none

/-- Parse the body of a JSON string up to and including the closing
quote, undoing the escapes of escByte.  \uXXXX is accepted for ASCII
code points (the only ones the encoder emits). -/
def parseStrBody : List Nat → Option (Str × List Nat)
  | [] => none
  | b :: rest =>
    if b = 34 then some ([], rest)
    else if b = 92 then
      match rest with
      | [] => none
      | e :: rest1 =>
        if e = 34 then (parseStrBody rest1).map (fun p => (34 :: p.1, p.2))
        else if e = 92 then (parseStrBody rest1).map (fun p => (92 :: p.1, p.2))
        else if e = 47 then (parseStrBody rest1).map (fun p => (47 :: p.1, p.2))
        else if e = 98 then (parseStrBody rest1).map (fun p => (8 :: p.1, p.2))
        else if e = 116 then (parseStrBody rest1).map (fun p => (9 :: p.1, p.2))
        else if e = 110 then (parseStrBody rest1).map (fun p => (10 :: p.1, p.2))
        else if e = 102 then (parseStrBody rest1).map (fun p => (12 :: p.1, p.2))
        else if e = 114 then (parseStrBody rest1).map (fun p => (13 :: p.1, p.2))
        else if e = 117 then
          match rest1 with
          | h1 :: h2 :: h3 :: h4 :: rest2 =>
            match hexVal h1, hexVal h2, hexVal h3, hexVal h4 with
            | some v1, some v2, some v3, some v4 =>
              let code := ((v1 * 16 + v2) * 16 + v3) * 16 + v4
              if code < 128 then (parseStrBody rest2).map (fun p => (code :: p.1, p.2))
              else none
            | _, _, _, _ => none
          | _ => none
        else none
    else if b < 32 then none
    else (parseStrBody rest).map (fun p => (b :: p.1, p.2))

/-- Parse a complete JSON string (opening quote, body, closing quote). -/
def parseString (bs : List Nat) : Option (Str × List Nat) :=
  match bs with
  | 34 :: rest => parseStrBody rest
  | _ => none

/-- Decode one Command record from the head of a byte stream, returning
the record and the bytes remaining after it.  This models one step of
serde_json's StreamDeserializer over the Command enum: skip whitespace,
then parse one externally tagged struct-variant object in canonical field
order.  The byte offset after the value is the input length minus the
length of the remainder. -/
def decodeOne (bs0 : List Nat) : Option (Command × List Nat) :=
  let bs := skipWs bs0
  (parseLit (str "\x7b\"") bs).bind fun r1 =>
  (parseStrBody r1).bind fun tag =>
  if tag.1 = str "Set" then
    (parseLit (str ":\x7b\"key\":") tag.2).bind fun r3 =>
    (parseString r3).bind fun k =>
    (parseLit (str ",\"value\":") k.2).bind fun r5 =>
    (parseString r5).bind fun v =>
    (parseLit (str "\x7d\x7d") v.2).map fun r7 => (Command.Set k.1 v.1, r7)
  else if tag.1 = str "Get" then
    (parseLit (str ":\x7b\"key\":") tag.2).bind fun r3 =>
    (parseString r3).bind fun k =>
    (parseLit (str "\x7d\x7d") k.2).map fun r7 => (Command.Get k.1, r7)
  else if tag.1 = str "Rm" then
    (parseLit (str ":\x7b\"key\":") tag.2).bind fun r3 =>
    (parseString r3).bind fun k =>
    (parseLit (str "\x7d\x7d") k.2).map fun r7 => (Command.Rm k.1, r7)
  else if tag.1 = str "Open" then
    (parseLit (str ":\x7b\"path\":") tag.2).bind fun r3 =>
    (parseString r3).bind fun p =>
    (parseLit (str "\x7d\x7d") p.2).map fun r7 => (Command.Open p.1, r7)
  else none

/-- serde_json::from_reader over a Take of exactly the given bytes: one
value must decode and the input must be exhausted afterwards (trailing
whitespace tolerated, anything else is an error). -/
def decodeExact (bs : List Nat) : Option Command :=
  match decodeOne bs with
  | some (c, rest) => if skipWs rest = [] then some c else none
  | none => none

/-! ### The in-memory index (BTreeMap<String, CommandPosition>) -/

/-- Byte-lexicographic strict order on byte strings: the ordering a Rust
BTreeMap<String, _> uses on UTF-8 encoded keys. -/
def strLtB : Str → Str → Bool
  | [], [] => false
  | [], _ :: _ => true
  | _ :: _, [] => false
  | a :: as, b :: bs => if a < b then true else if b < a then false else strLtB as bs

/-- The index: a key-sorted association list modelling
BTreeMap<String, CommandPosition>. -/
abbrev Index := List (Str × CommandPosition)

def idxLookup (k : Str) : Index → Option CommandPosition
  | [] => none
  | (k0, p0) :: rest => if k = k0 then some p0 else idxLookup k rest

/-- BTreeMap::insert: returns the previous value for the key (if any)
together with the updated map; keeps the list sorted when it was. -/
def idxInsert (k : Str) (p : CommandPosition) : Index → Option CommandPosition × Index
  | [] => (none, [(k, p)])
  | (k0, p0) :: rest =>
    if strLtB k k0 then (none, (k, p) :: (k0, p0) :: rest)
    else if k = k0 then (some p0, (k, p) :: rest)
    else
      let r := idxInsert k p rest
      (r.1, (k0, p0) :: r.2)

/-- BTreeMap::remove: returns the removed value (if any) together with
the updated map. -/
def idxRemove (k : Str) : Index → Option CommandPosition × Index
  | [] => (none, [])
  | (k0, p0) :: rest =>
    if k = k0 then (some p0, rest)
    else
      let r := idxRemove k rest
      (r.1, (k0, p0) :: r.2)

/-- Keys strictly increasing along the list (the BTreeMap iteration
invariant), stated as: every key is below all later keys. -/
def sortedB : Index → Bool
  | [] => true
  | a :: rest => rest.all (fun b => strLtB a.1 b.1) && sortedB rest

/-! ### The storage engine (src/kvs.rs) -/

/-- Dirt threshold from src/kvs.rs line 12. -/
def THRESHOLD : Nat := 8008135

/-- The engine state.  file is the byte content of the log file on disk
(the writer is always flushed at the points the model observes it);
writerPos is BufWriterWithPos.position; readerPos is
BufReaderWithPos.position; fileCursor is the OS read cursor of the
reader's File handle (reads in get, open and compact go straight to the
File via get_ref/get_mut, so they move fileCursor but never readerPos);
dirt is the dirt counter.  The path field of the Rust struct is dropped:
openFrom below takes the file content directly. -/
structure KvStore where
  file : List Nat
  index : Index
  writerPos : Nat
  readerPos : Nat
  fileCursor : Nat
  dirt : Nat
deriving DecidableEq, Repr

/-- One replay step loop of KvStore::open, fuelled (the fuel is spent one
unit per decoded record; openFrom passes file length + 1, which always
suffices because every record occupies at least one byte).  pos is
initial_pos, the absolute offset where the current record starts; after
each record the new absolute offset is pos plus the bytes consumed
(stream.byte_offset()).  Set inserts the span, Rm removes the key, other
variants are skipped.  A malformed record surfaces the serde error. -/
def replayGo : Nat → List Nat → Nat → Index → Except KvStoreError (Index × Nat)
  | 0, _, _, _ => .error .InvalidFile
  | fuel + 1, bs, pos, idx =>
    if skipWs bs = [] then .ok (idx, pos)
    else
      match decodeOne bs with
      | none => .error .SerdeSerError
      | some (c, rest) =>
        let offset := pos + (bs.length - rest.length)
        let idx2 :=
          match c with
          | .Set k _ => (idxInsert k ⟨pos, offset - pos⟩ idx).2
          | .Rm k => (idxRemove k idx).2
          | _ => idx
        replayGo fuel rest offset idx2

/-- KvStore::open on a path whose file currently holds the given bytes
(the empty list models a freshly created file; the path normalization of
the source, empty string to cwd and directory to default_log_file.txt, is
outside the model).  Replays the log from offset 0 to build the index,
leaves writer.position at the offset after the last record, recreates the
reader (position 0), and starts dirt at 0. -/
def KvStore.openFrom (file : List Nat) : Except KvStoreError KvStore :=
  match replayGo (file.length + 1) file 0 [] with
  | .error e => .error e
  | .ok (index, endPos) =>
    .ok { file := file
          index := index
          writerPos := endPos
          readerPos := 0
          fileCursor := 0
          dirt := 0 }

/-- KvStore::get: look the key up; if present, seek the reader's File to
start, read length bytes through a Take, and decode exactly one record;
a Set yields its value, any other record is InvalidLogFileCommand, and a
decode failure is the serde error.  The File cursor ends after the taken
bytes; reader.position is untouched (the read bypasses the wrapper).
An absent key returns None without touching anything. -/
def KvStore.get (s : KvStore) (key : Str) : Except KvStoreError (Option Str) × KvStore :=
  match idxLookup key s.index with
  | some cp =>
    let bytes := (s.file.drop cp.start).take cp.length
    let s2 : KvStore := { s with fileCursor := cp.start + bytes.length }
    match decodeExact bytes with
    | some (.Set _ value) => (.ok (some value), s2)
    | some _ => (.error .InvalidLogFileCommand, s2)
    | none => (.error .SerdeSerError, s2)
  | none => (.ok none, s)

/-- State of the read loop inside KvStore::compact. -/
structure CompactLoop where
  readerPos : Nat
  fileCursor : Nat
  currPosition : Nat
  newValues : List Command
deriving Repr

/-- The read loop of KvStore::compact over the index entries in key
order.  For each entry: seek to its start only when reader.position
differs from it (reader.position is only ever changed by these seeks, so
it can be stale); read length bytes from the File cursor; decode exactly
one record; if it is a Set, move the entry's start to the next write
position, advance that by the entry's (old) length, and queue the record
for rewriting; any other record leaves the entry untouched.  A decode
failure aborts the loop, leaving already-processed entries mutated.
Returns the final loop state, the (partially) rewritten entries, and the
error if any. -/
def compactGo (file : List Nat) (st : CompactLoop) :
    Index → CompactLoop × Index × Option KvStoreError
  | [] => (st, [], none)
  | (k, cp) :: rest =>
    let doSeek := st.readerPos ≠ cp.start
    let rp := if doSeek then cp.start else st.readerPos
    let fc := if doSeek then cp.start else st.fileCursor
    let bytes := (file.drop fc).take cp.length
    match decodeExact bytes with
    | none =>
      ({ st with readerPos := rp, fileCursor := fc }, (k, cp) :: rest, some .SerdeSerError)
    | some c =>
      match c with
      | .Set k2 v =>
        let st2 : CompactLoop :=
          { readerPos := rp
            fileCursor := fc + bytes.length
            currPosition := st.currPosition + cp.length
            newValues := st.newValues ++ [Command.Set k2 v] }
        let r := compactGo file st2 rest
        (r.1, (k, { cp with start := st.currPosition }) :: r.2.1, r.2.2)
      | _ =>
        let st2 : CompactLoop :=
          { st with readerPos := rp, fileCursor := fc + bytes.length }
        let r := compactGo file st2 rest
        (r.1, (k, cp) :: r.2.1, r.2.2)

/-- KvStore::compact: run the read loop; on success remove the old file,
recreate writer and reader against the new (empty) file, append the
surviving records, flush, and seek both reader and writer to offset 0 —
so after a successful compaction writer.position is 0 (the append-mode
handle still writes at end-of-file).  On a read-loop error the file is
untouched (removal happens after the loop) but the index mutations and
reader seeks performed so far persist. -/
def KvStore.compact (s : KvStore) : Except KvStoreError Unit × KvStore :=
  let st0 : CompactLoop :=
    { readerPos := s.readerPos, fileCursor := s.fileCursor, currPosition := 0, newValues := [] }
  let r := compactGo s.file st0 s.index
  match r.2.2 with
  | some e =>
    (.error e, { s with index := r.2.1, readerPos := r.1.readerPos, fileCursor := r.1.fileCursor })
  | none =>
    let newFile := (r.1.newValues.map encodeCmd).flatten
    (.ok (), { s with
               file := newFile
               index := r.2.1
               writerPos := 0
               readerPos := 0
               fileCursor := 0 })

/-- KvStore::set: record the current writer position, append the encoded
Set record (append mode: the bytes land at end-of-file) and flush,
insert the span into the index charging a replaced entry's length to
dirt, and when dirt reaches THRESHOLD run compaction and (on its
success) reset dirt to zero. -/
def KvStore.set (s : KvStore) (key value : Str) : Except KvStoreError Unit × KvStore :=
  let bytes := encodeCmd (Command.Set key value)
  let currPosition := s.writerPos
  let s1 : KvStore := { s with file := s.file ++ bytes, writerPos := s.writerPos + bytes.length }
  let ins := idxInsert key ⟨currPosition, s1.writerPos - currPosition⟩ s.index
  let s2 : KvStore := { s1 with
    index := ins.2
    dirt := (match ins.1 with | some old => s1.dirt + old.length | none => s1.dirt) }
  if THRESHOLD ≤ s2.dirt then
    match s2.compact with
    | (.ok _, s3) => (.ok (), { s3 with dirt := 0 })
    | (.error e, s3) => (.error e, s3)
  else (.ok (), s2)

/-- KvStore::remove with an explicit outcome for the append+flush I/O:
the key is removed from the index first; if it was present the Rm record
is appended and flushed, and when that I/O fails the error is returned
with the index already lacking the key and the file unchanged.  An
absent key fails with KeyNotFound before any I/O. -/
def KvStore.removeF (s : KvStore) (key : Str) (appendOk : Bool) :
    Except KvStoreError Unit × KvStore :=
  match idxRemove key s.index with
  | (some _, idx2) =>
    let s1 : KvStore := { s with index := idx2 }
    if appendOk then
      let bytes := encodeCmd (Command.Rm key)
      (.ok (), { s1 with file := s1.file ++ bytes, writerPos := s1.writerPos + bytes.length })
    else (.error .IoError, s1)
  | (none, _) => (.error .KeyNotFound, s)

/-- KvStore::remove (the I/O succeeding, as the pure model assumes
elsewhere). -/
def KvStore.remove (s : KvStore) (key : Str) : Except KvStoreError Unit × KvStore :=
  s.removeF key true

/-- The state KvStore::set has built right before its threshold check:
record appended and flushed, index entry inserted, and a replaced
entry's length charged to dirt.  (This is the prefix of KvStore.set,
split out so theorems can name the intermediate state.) -/
def setMid (s : KvStore) (k v : Str) : KvStore :=
  let bytes := encodeCmd (Command.Set k v)
  let s1 : KvStore := { s with file := s.file ++ bytes, writerPos := s.writerPos + bytes.length }
  let ins := idxInsert k ⟨s.writerPos, s.writerPos + bytes.length - s.writerPos⟩ s.index
  { s1 with
    index := ins.2
    dirt := (match ins.1 with | some old => s1.dirt + old.length | none => s1.dirt) }

theorem set_eq_setMid (s : KvStore) (k v : Str) :
    s.set k v =
      if THRESHOLD ≤ (setMid s k v).dirt then
        match (setMid s k v).compact with
        | (.ok _, s3) => (.ok (), { s3 with dirt := 0 })
        | (.error e, s3) => (.error e, s3)
      else (.ok (), setMid s k v) := rfl

/-! ### Concrete states used to exercise the compaction path -/

/-- The empty engine state: what opening a fresh (absent or empty) log
file yields. -/
def freshStore : KvStore :=
  { file := [], index := [], writerPos := 0, readerPos := 0, fileCursor := 0, dirt := 0 }

/-- A two-record log: Set a := X0 at offset 0, Set c := Y0 right after.
Both records are 32 bytes long. -/
def demoLog : List Nat :=
  encodeCmd (.Set (str "a") (str "X0")) ++ encodeCmd (.Set (str "c") (str "Y0"))

/-- The engine opened on demoLog. -/
def demoStore : KvStore := (KvStore.openFrom demoLog).toOption.getD freshStore

/-- demoStore after get("a"): the only change is the reader's File
cursor, which now sits at the end of the a record (offset 32) while
reader.position is still 0. -/
def demoAfterGet : KvStore := (demoStore.get (str "a")).2

/-- demoAfterGet after running compaction (the state a
threshold-crossing set would hand to compact, minus the dirt
bookkeeping, which compact never reads). -/
def demoAfterCompact : KvStore := demoAfterGet.compact.2

/-- demoAfterCompact after one further set("d", "W0"). -/
def demoAfterSet : KvStore := (demoAfterCompact.set (str "d") (str "W0")).2

/-- The engine reopened on the log file left behind by demoAfterSet
(modelling close + open at the same path). -/
def demoReopened : KvStore := (KvStore.openFrom demoAfterSet.file).toOption.getD freshStore

/-! ### Round-trip of the on-disk codec -/

theorem hexVal_hexDig (n : Nat) (h : n < 16) : hexVal (hexDig n) = some n := by
  by_cases h10 : n < 10
  · have hd : hexDig n = 48 + n := by simp [hexDig, h10]
    rw [hd]
    unfold hexVal
    rw [if_pos (by omega : 48 ≤ 48 + n ∧ 48 + n ≤ 57)]
    congr 1
    omega
  · have hd : hexDig n = 87 + n := by simp [hexDig, h10]
    rw [hd]
    unfold hexVal
    rw [if_neg (by omega : ¬(48 ≤ 87 + n ∧ 87 + n ≤ 57)),
      if_pos (by omega : 97 ≤ 87 + n ∧ 87 + n ≤ 102)]
    congr 1
    omega

theorem escapeStr_cons (b : Nat) (s : Str) :
    escapeStr (b :: s) = escByte b ++ escapeStr s := by
  simp [escapeStr]

theorem parseStrBody_quote (t : List Nat) : parseStrBody (34 :: t) = some ([], t) := by
  rw [parseStrBody.eq_def]
  simp

theorem parseStrBody_esc (e c : Nat) (X : List Nat)
    (h : (e, c) = (34, 34) ∨ (e, c) = (92, 92) ∨ (e, c) = (47, 47) ∨ (e, c) = (98, 8) ∨
      (e, c) = (116, 9) ∨ (e, c) = (110, 10) ∨ (e, c) = (102, 12) ∨ (e, c) = (114, 13)) :
    parseStrBody (92 :: e :: X) = (parseStrBody X).map (fun p => (c :: p.1, p.2)) := by
  rw [parseStrBody.eq_def]
  rcases h with h | h | h | h | h | h | h | h <;>
    (injection h with h1 h2; subst h1; subst h2; simp)

theorem parseStrBody_esc_u (d1 d2 d3 d4 : Nat) (X : List Nat) (v1 v2 v3 v4 : Nat)
    (h1 : hexVal d1 = some v1) (h2 : hexVal d2 = some v2)
    (h3 : hexVal d3 = some v3) (h4 : hexVal d4 = some v4)
    (hlt : ((v1 * 16 + v2) * 16 + v3) * 16 + v4 < 128) :
    parseStrBody (92 :: 117 :: d1 :: d2 :: d3 :: d4 :: X) =
      (parseStrBody X).map
        (fun p => ((((v1 * 16 + v2) * 16 + v3) * 16 + v4) :: p.1, p.2)) := by
  rw [parseStrBody.eq_def]
  simp [h1, h2, h3, h4, hlt]

theorem parseStrBody_plain (b : Nat) (X : List Nat)
    (hq : ¬b = 34) (hbs : ¬b = 92) (hge : ¬b < 32) :
    parseStrBody (b :: X) = (parseStrBody X).map (fun p => (b :: p.1, p.2)) := by
  rw [parseStrBody.eq_def]
  simp [hq, hbs, hge]

theorem parseStrBody_escape : ∀ (s : Str) (t : List Nat),
    parseStrBody (escapeStr s ++ 34 :: t) = some (s, t)
  | [], t => by
    show parseStrBody (escapeStr [] ++ 34 :: t) = some ([], t)
    have h0 : escapeStr [] = [] := rfl
    rw [h0, List.nil_append, parseStrBody_quote]
  | b :: s, t => by
    have IH := parseStrBody_escape s t
    rw [escapeStr_cons, List.append_assoc]
    by_cases h34 : b = 34
    · subst h34
      have he : escByte 34 = [92, 34] := rfl
      rw [he]
      simp only [List.cons_append, List.nil_append]
      rw [parseStrBody_esc 34 34 _ (by tauto), IH]
      rfl
    · by_cases h92 : b = 92
      · subst h92
        have he : escByte 92 = [92, 92] := rfl
        rw [he]
        simp only [List.cons_append, List.nil_append]
        rw [parseStrBody_esc 92 92 _ (by tauto), IH]
        rfl
      · by_cases h8 : b = 8
        · subst h8
          have he : escByte 8 = [92, 98] := rfl
          rw [he]
          simp only [List.cons_append, List.nil_append]
          rw [parseStrBody_esc 98 8 _ (by tauto), IH]
          rfl
        · by_cases h9 : b = 9
          · subst h9
            have he : escByte 9 = [92, 116] := rfl
            rw [he]
            simp only [List.cons_append, List.nil_append]
            rw [parseStrBody_esc 116 9 _ (by tauto), IH]
            rfl
          · by_cases h10 : b = 10
            · subst h10
              have he : escByte 10 = [92, 110] := rfl
              rw [he]
              simp only [List.cons_append, List.nil_append]
              rw [parseStrBody_esc 110 10 _ (by tauto), IH]
              rfl
            · by_cases h12 : b = 12
              · subst h12
                have he : escByte 12 = [92, 102] := rfl
                rw [he]
                simp only [List.cons_append, List.nil_append]
                rw [parseStrBody_esc 102 12 _ (by tauto), IH]
                rfl
              · by_cases h13 : b = 13
                · subst h13
                  have he : escByte 13 = [92, 114] := rfl
                  rw [he]
                  simp only [List.cons_append, List.nil_append]
                  rw [parseStrBody_esc 114 13 _ (by tauto), IH]
                  rfl
                · by_cases hlt : b < 32
                  · have hesc : escByte b =
                        [92, 117, 48, 48, hexDig (b / 16), hexDig (b % 16)] := by
                      unfold escByte
                      rw [if_neg h34, if_neg h92, if_neg h8, if_neg h9, if_neg h10,
                        if_neg h12, if_neg h13, if_pos hlt]
                    have hv3 : hexVal (hexDig (b / 16)) = some (b / 16) :=
                      hexVal_hexDig _ (by omega)
                    have hv4 : hexVal (hexDig (b % 16)) = some (b % 16) :=
                      hexVal_hexDig _ (by omega)
                    have hv48 : hexVal 48 = some 0 := rfl
                    have hcode : ((0 * 16 + 0) * 16 + b / 16) * 16 + b % 16 = b := by omega
                    rw [hesc]
                    simp only [List.cons_append, List.nil_append]
                    rw [parseStrBody_esc_u 48 48 (hexDig (b / 16)) (hexDig (b % 16)) _
                      0 0 (b / 16) (b % 16) hv48 hv48 hv3 hv4 (by omega), IH]
                    simp only [Option.map_some']
                    rw [hcode]
                  · have hesc : escByte b = [b] := by
                      unfold escByte
                      rw [if_neg h34, if_neg h92, if_neg h8, if_neg h9, if_neg h10,
                        if_neg h12, if_neg h13, if_neg hlt]
                    rw [hesc]
                    simp only [List.cons_append, List.nil_append]
                    rw [parseStrBody_plain b _ h34 h92 hlt, IH]
                    rfl

theorem parseLit_self : ∀ (l t : List Nat), parseLit l (l ++ t) = some t
  | [], t => rfl
  | b :: l, t => by simp [parseLit, parseLit_self l t]

theorem skipWs_brace (X : List Nat) : skipWs (123 :: X) = 123 :: X := by
  simp [skipWs]

/-- encodeCmd output for Set, rearranged along the parser's stages. -/
theorem encodeCmd_Set_eq (k v : Str) (t : List Nat) :
    encodeCmd (.Set k v) ++ t =
      123 :: 34 :: (escapeStr (str "Set") ++ 34 ::
        (str ":\x7b\"key\":" ++ 34 :: (escapeStr k ++ 34 ::
          (str ",\"value\":" ++ 34 :: (escapeStr v ++ 34 :: (str "\x7d\x7d" ++ t)))))) := by
  have h1 : str "\x7b\"Set\":\x7b\"key\":" =
      123 :: 34 :: (escapeStr (str "Set") ++ 34 :: str ":\x7b\"key\":") := by decide
  show (str "\x7b\"Set\":\x7b\"key\":" ++ encStr k ++ str ",\"value\":" ++ encStr v ++
    str "\x7d\x7d") ++ t = _
  rw [h1]
  simp [encStr, List.append_assoc]

theorem encodeCmd_Get_eq (k : Str) (t : List Nat) :
    encodeCmd (.Get k) ++ t =
      123 :: 34 :: (escapeStr (str "Get") ++ 34 ::
        (str ":\x7b\"key\":" ++ 34 :: (escapeStr k ++ 34 :: (str "\x7d\x7d" ++ t)))) := by
  have h1 : str "\x7b\"Get\":\x7b\"key\":" =
      123 :: 34 :: (escapeStr (str "Get") ++ 34 :: str ":\x7b\"key\":") := by decide
  show (str "\x7b\"Get\":\x7b\"key\":" ++ encStr k ++ str "\x7d\x7d") ++ t = _
  rw [h1]
  simp [encStr, List.append_assoc]

theorem encodeCmd_Rm_eq (k : Str) (t : List Nat) :
    encodeCmd (.Rm k) ++ t =
      123 :: 34 :: (escapeStr (str "Rm") ++ 34 ::
        (str ":\x7b\"key\":" ++ 34 :: (escapeStr k ++ 34 :: (str "\x7d\x7d" ++ t)))) := by
  have h1 : str "\x7b\"Rm\":\x7b\"key\":" =
      123 :: 34 :: (escapeStr (str "Rm") ++ 34 :: str ":\x7b\"key\":") := by decide
  show (str "\x7b\"Rm\":\x7b\"key\":" ++ encStr k ++ str "\x7d\x7d") ++ t = _
  rw [h1]
  simp [encStr, List.append_assoc]

theorem encodeCmd_Open_eq (p : Str) (t : List Nat) :
    encodeCmd (.Open p) ++ t =
      123 :: 34 :: (escapeStr (str "Open") ++ 34 ::
        (str ":\x7b\"path\":" ++ 34 :: (escapeStr p ++ 34 :: (str "\x7d\x7d" ++ t)))) := by
  have h1 : str "\x7b\"Open\":\x7b\"path\":" =
      123 :: 34 :: (escapeStr (str "Open") ++ 34 :: str ":\x7b\"path\":") := by decide
  show (str "\x7b\"Open\":\x7b\"path\":" ++ encStr p ++ str "\x7d\x7d") ++ t = _
  rw [h1]
  simp [encStr, List.append_assoc]

theorem parseLit_brace_quote (X : List Nat) :
    parseLit (str "\x7b\"") (123 :: 34 :: X) = some X := by
  have h : str "\x7b\"" = [123, 34] := by decide
  rw [h]
  simp [parseLit]

/-- Decoding the head of a stream that starts with an encoded record
yields exactly that record and the bytes after it: one step of replay
consumes exactly the record's bytes. -/
theorem decodeOne_encode (c : Command) (t : List Nat) :
    decodeOne (encodeCmd c ++ t) = some (c, t) := by
  cases c with
  | Set k v =>
    rw [encodeCmd_Set_eq]
    simp only [decodeOne]
    rw [skipWs_brace, parseLit_brace_quote]
    simp only [Option.some_bind]
    rw [parseStrBody_escape]
    simp only [Option.some_bind, if_pos rfl]
    rw [parseLit_self]
    simp only [Option.some_bind, parseString]
    rw [parseStrBody_escape]
    simp only [Option.some_bind]
    rw [parseLit_self]
    simp only [Option.some_bind, parseString]
    rw [parseStrBody_escape]
    simp only [Option.some_bind]
    rw [parseLit_self]
    rfl
  | Get k =>
    rw [encodeCmd_Get_eq]
    simp only [decodeOne]
    rw [skipWs_brace, parseLit_brace_quote]
    simp only [Option.some_bind]
    rw [parseStrBody_escape]
    simp only [Option.some_bind]
    rw [if_neg (by decide : ¬(str "Get" = str "Set")), if_true]
    rw [parseLit_self]
    simp only [Option.some_bind, parseString]
    rw [parseStrBody_escape]
    simp only [Option.some_bind]
    rw [parseLit_self]
    rfl
  | Rm k =>
    rw [encodeCmd_Rm_eq]
    simp only [decodeOne]
    rw [skipWs_brace, parseLit_brace_quote]
    simp only [Option.some_bind]
    rw [parseStrBody_escape]
    simp only [Option.some_bind]
    rw [if_neg (by decide : ¬(str "Rm" = str "Set")),
      if_neg (by decide : ¬(str "Rm" = str "Get")), if_true]
    rw [parseLit_self]
    simp only [Option.some_bind, parseString]
    rw [parseStrBody_escape]
    simp only [Option.some_bind]
    rw [parseLit_self]
    rfl
  | Open p =>
    rw [encodeCmd_Open_eq]
    simp only [decodeOne]
    rw [skipWs_brace, parseLit_brace_quote]
    simp only [Option.some_bind]
    rw [parseStrBody_escape]
    simp only [Option.some_bind]
    rw [if_neg (by decide : ¬(str "Open" = str "Set")),
      if_neg (by decide : ¬(str "Open" = str "Get")),
      if_neg (by decide : ¬(str "Open" = str "Rm")), if_true]
    rw [parseLit_self]
    simp only [Option.some_bind, parseString]
    rw [parseStrBody_escape]
    simp only [Option.some_bind]
    rw [parseLit_self]
    rfl

/-! ### Replay of a log that is a concatenation of records -/

/-- The byte content of a log holding the given records in order. -/
def encLog (cs : List Command) : List Nat := (cs.map encodeCmd).flatten

theorem encodeCmd_cons (c : Command) : ∃ tl, encodeCmd c = 123 :: tl := by
  cases c with
  | Set k v =>
    have h := encodeCmd_Set_eq k v []
    rw [List.append_nil] at h
    exact ⟨_, h⟩
  | Get k =>
    have h := encodeCmd_Get_eq k []
    rw [List.append_nil] at h
    exact ⟨_, h⟩
  | Rm k =>
    have h := encodeCmd_Rm_eq k []
    rw [List.append_nil] at h
    exact ⟨_, h⟩
  | Open p =>
    have h := encodeCmd_Open_eq p []
    rw [List.append_nil] at h
    exact ⟨_, h⟩

theorem encodeCmd_length_pos (c : Command) : 0 < (encodeCmd c).length := by
  obtain ⟨tl, htl⟩ := encodeCmd_cons c
  rw [htl]
  simp

/-- The index/offset effect of one replayed record (the loop body of
KvStore::open): a Set inserts the record's span at the current offset
(overwriting any earlier entry for the key), an Rm removes the key,
anything else is skipped; every record advances the offset by its
encoded length. -/
def replayStep (st : Index × Nat) (c : Command) : Index × Nat :=
  match c with
  | .Set k v => ((idxInsert k ⟨st.2, (encodeCmd (.Set k v)).length⟩ st.1).2,
      st.2 + (encodeCmd (.Set k v)).length)
  | .Rm k => ((idxRemove k st.1).2, st.2 + (encodeCmd (.Rm k)).length)
  | .Get k => (st.1, st.2 + (encodeCmd (.Get k)).length)
  | .Open p => (st.1, st.2 + (encodeCmd (.Open p)).length)

def replayFold (cs : List Command) (st : Index × Nat) : Index × Nat :=
  cs.foldl replayStep st

theorem replayFold_snd : ∀ (cs : List Command) (st : Index × Nat),
    (replayFold cs st).2 = st.2 + (encLog cs).length
  | [], st => by simp [replayFold, encLog]
  | c :: cs, st => by
    have h := replayFold_snd cs (replayStep st c)
    have hstep : (replayStep st c).2 = st.2 + (encodeCmd c).length := by
      cases c <;> rfl
    have hcons : (encLog (c :: cs)).length = (encodeCmd c).length + (encLog cs).length := by
      simp [encLog]
    calc (replayFold (c :: cs) st).2 = (replayFold cs (replayStep st c)).2 := rfl
      _ = (replayStep st c).2 + (encLog cs).length := h
      _ = st.2 + (encLog (c :: cs)).length := by rw [hstep, hcons]; omega

theorem replayGo_encLog : ∀ (cs : List Command) (idx : Index) (pos fuel : Nat),
    (encLog cs).length < fuel →
    replayGo fuel (encLog cs) pos idx = .ok (replayFold cs (idx, pos))
  | [], idx, pos, fuel, h => by
    obtain ⟨f, rfl⟩ : ∃ f, fuel = f + 1 := ⟨fuel - 1, by omega⟩
    show replayGo (f + 1) [] pos idx = _
    rw [replayGo.eq_def]
    simp [skipWs, replayFold]
  | c :: cs, idx, pos, fuel, h => by
    obtain ⟨f, rfl⟩ : ∃ f, fuel = f + 1 := ⟨fuel - 1, by omega⟩
    obtain ⟨tl, htl⟩ := encodeCmd_cons c
    have henc : encLog (c :: cs) = encodeCmd c ++ encLog cs := by simp [encLog]
    have hlen : (encLog (c :: cs)).length = (encodeCmd c).length + (encLog cs).length := by
      simp [encLog]
    have hne : skipWs (encLog (c :: cs)) ≠ [] := by
      rw [henc, htl, List.cons_append, skipWs_brace]
      simp
    have hdec : decodeOne (encLog (c :: cs)) = some (c, encLog cs) := by
      rw [henc]
      exact decodeOne_encode c (encLog cs)
    have hflen : (encLog cs).length < f := by
      have := encodeCmd_length_pos c
      omega
    have hoff : pos + ((encLog (c :: cs)).length - (encLog cs).length) =
        pos + (encodeCmd c).length := by omega
    rw [replayGo.eq_def]
    simp only [hdec, if_neg hne]
    rw [hoff]
    have IH := fun idx2 => replayGo_encLog cs idx2 (pos + (encodeCmd c).length) f hflen
    cases c with
    | Set k v =>
      simp only []
      rw [IH]
      show _ = .ok (replayFold cs (replayStep (idx, pos) (.Set k v)))
      have : pos + (encodeCmd (Command.Set k v)).length - pos =
          (encodeCmd (Command.Set k v)).length := by omega
      rw [this]
      rfl
    | Get k =>
      simp only []
      rw [IH]
      rfl
    | Rm k =>
      simp only []
      rw [IH]
      rfl
    | Open p =>
      simp only []
      rw [IH]
      rfl

/-! ### Basic facts about the index operations -/

theorem strLtB_irrefl : ∀ a : Str, strLtB a a = false
  | [] => rfl
  | x :: as => by simp [strLtB, strLtB_irrefl as]

theorem strLtB_ne {a b : Str} (h : strLtB a b = true) : a ≠ b := by
  intro heq
  subst heq
  rw [strLtB_irrefl] at h
  cases h

theorem strLtB_trans : ∀ a b c : Str, strLtB a b = true → strLtB b c = true → strLtB a c = true
  | [], [], _, h1, _ => by simp [strLtB] at h1
  | [], _ :: _, [], _, h2 => by simp [strLtB] at h2
  | [], _ :: _, _ :: _, _, _ => rfl
  | _ :: _, [], _, h1, _ => by simp [strLtB] at h1
  | _ :: _, _ :: _, [], _, h2 => by simp [strLtB] at h2
  | x :: as, y :: bs, z :: cs, h1, h2 => by
    simp only [strLtB] at h1 h2 ⊢
    rcases Nat.lt_trichotomy x y with hxy | hxy | hxy
    · rcases Nat.lt_trichotomy y z with hyz | hyz | hyz
      · simp [Nat.lt_trans hxy hyz]
      · subst hyz; simp [hxy]
      · simp [Nat.lt_asymm hyz, hyz] at h2
    · subst hxy
      simp only [Nat.lt_irrefl, if_false] at h1
      rcases Nat.lt_trichotomy x z with hxz | hxz | hxz
      · simp [hxz]
      · subst hxz
        simp only [Nat.lt_irrefl, if_false] at h2 ⊢
        exact strLtB_trans as bs cs h1 h2
      · simp [Nat.lt_asymm hxz, hxz] at h2
    · simp [Nat.lt_asymm hxy, hxy] at h1

theorem idxLookup_none_of_lt (k : Str) :
    ∀ m : Index, (∀ e ∈ m, strLtB k e.1 = true) → idxLookup k m = none
  | [], _ => rfl
  | (k0, p0) :: rest, h => by
    have hk0 : strLtB k k0 = true := h (k0, p0) (List.mem_cons_self _ _)
    simp only [idxLookup, if_neg (strLtB_ne hk0)]
    exact idxLookup_none_of_lt k rest (fun e he => h e (List.mem_cons_of_mem _ he))

theorem sortedB_tail {a : Str × CommandPosition} {m : Index}
    (h : sortedB (a :: m) = true) : sortedB m = true := by
  simp only [sortedB, Bool.and_eq_true] at h
  exact h.2

theorem sortedB_head_lt {a : Str × CommandPosition} {m : Index}
    (h : sortedB (a :: m) = true) : ∀ e ∈ m, strLtB a.1 e.1 = true := by
  simp only [sortedB, Bool.and_eq_true, List.all_eq_true] at h
  exact h.1

theorem idxRemove_fst (k : Str) : ∀ m : Index, (idxRemove k m).1 = idxLookup k m
  | [] => rfl
  | (k0, p0) :: rest => by
    by_cases h : k = k0 <;> simp [idxRemove, idxLookup, h, idxRemove_fst k rest]

theorem idxInsert_fst (k : Str) (p : CommandPosition) :
    ∀ m : Index, sortedB m = true → (idxInsert k p m).1 = idxLookup k m
  | [], _ => rfl
  | (k0, p0) :: rest, hs => by
    by_cases hlt : strLtB k k0 = true
    · have hnone : idxLookup k rest = none := by
        refine idxLookup_none_of_lt k rest (fun e he => ?_)
        exact strLtB_trans k k0 e.1 hlt (sortedB_head_lt hs e he)
      simp [idxInsert, idxLookup, hlt, strLtB_ne hlt, hnone]
    · by_cases heq : k = k0
      · simp [idxInsert, idxLookup, hlt, heq, strLtB_irrefl]
      · simp [idxInsert, idxLookup, hlt, heq,
          idxInsert_fst k p rest (sortedB_tail hs)]

theorem idxLookup_idxInsert_self (k : Str) (p : CommandPosition) :
    ∀ m : Index, idxLookup k (idxInsert k p m).2 = some p
  | [] => by simp [idxInsert, idxLookup]
  | (k0, p0) :: rest => by
    by_cases hlt : strLtB k k0 = true
    · simp [idxInsert, idxLookup, hlt]
    · by_cases heq : k = k0
      · simp [idxInsert, idxLookup, hlt, heq, strLtB_irrefl]
      · simp [idxInsert, idxLookup, hlt, heq, idxLookup_idxInsert_self k p rest]

theorem idxLookup_idxInsert_ne (k k2 : Str) (p : CommandPosition) (hne : k2 ≠ k) :
    ∀ m : Index, idxLookup k2 (idxInsert k p m).2 = idxLookup k2 m
  | [] => by simp [idxInsert, idxLookup, hne]
  | (k0, p0) :: rest => by
    by_cases hlt : strLtB k k0 = true
    · simp [idxInsert, idxLookup, hlt, hne]
    · by_cases heq : k = k0
      · subst heq
        simp [idxInsert, idxLookup, hlt, hne]
      · simp [idxInsert, idxLookup, hlt, heq, idxLookup_idxInsert_ne k k2 p hne rest]

theorem idxLookup_idxRemove_self (k : Str) :
    ∀ m : Index, sortedB m = true → idxLookup k (idxRemove k m).2 = none
  | [], _ => rfl
  | (k0, p0) :: rest, hs => by
    by_cases heq : k = k0
    · subst heq
      simp only [idxRemove, if_pos rfl]
      refine idxLookup_none_of_lt k rest (fun e he => ?_)
      exact sortedB_head_lt hs e he
    · simp [idxRemove, idxLookup, heq, idxLookup_idxRemove_self k rest (sortedB_tail hs)]

theorem idxLookup_idxRemove_ne (k k2 : Str) (hne : k2 ≠ k) :
    ∀ m : Index, idxLookup k2 (idxRemove k m).2 = idxLookup k2 m
  | [] => rfl
  | (k0, p0) :: rest => by
    by_cases heq : k = k0
    · subst heq
      simp [idxRemove, idxLookup, hne]
    · simp [idxRemove, idxLookup, heq, idxLookup_idxRemove_ne k k2 hne rest]

/-- remove on a key absent from the index fails with KeyNotFound and
returns the state untouched (the error is raised before any I/O). -/
theorem remove_absent (s : KvStore) (k : Str) (h : idxLookup k s.index = none) :
    s.remove k = (.error .KeyNotFound, s) := by
  have h2 : idxRemove k s.index = (none, (idxRemove k s.index).2) := by
    rw [Prod.ext_iff]
    exact ⟨by rw [idxRemove_fst]; exact h, rfl⟩
  unfold KvStore.remove KvStore.removeF
  rw [h2]

/-! ### Demonstration theorems for the compaction defects (C1-C4) -/

/-- C1: compaction does not preserve observable state.  On the reachable
engine shape demoAfterGet (log with keys a and c, a get("a") having
moved the File cursor to 32 while reader.position stayed 0), compaction
succeeds, yet get("a") answers X0 immediately before it and Y0
immediately after it: the read loop skipped the seek for the first entry
(reader.position 0 equals its start 0) and decoded the record sitting at
the stale cursor, which belongs to key c. -/
theorem compact_not_observation_preserving :
    demoAfterGet.compact.1 = .ok () ∧
    (demoAfterGet.get (str "a")).1 = .ok (some (str "X0")) ∧
    (demoAfterCompact.get (str "a")).1 = .ok (some (str "Y0")) ∧
    str "X0" ≠ str "Y0" :=
  ⟨rfl, rfl, rfl, by decide⟩

/-- C2: immediately after a successful compaction the writer's tracked
position is 0, not the length of the rewritten log: the final
writer.seek(SeekFrom::Start(0)) in KvStore::compact sets position to 0
while the rewritten file here is 64 bytes long. -/
theorem compact_leaves_writer_at_zero :
    demoAfterGet.compact.1 = .ok () ∧
    demoAfterCompact.writerPos = 0 ∧
    demoAfterCompact.file.length = 64 ∧
    (0 : Nat) ≠ 64 :=
  ⟨rfl, rfl, rfl, by decide⟩

/-- C3: after a compaction, the next set breaks the index invariant: the
new entry for key d records start 0 and length 32, but the 32 bytes at
offset 0 of the log are the record of key c (the d record was appended
at end-of-file, offset 64, because the file handle is in append mode
while writer.position was left at 0). -/
theorem index_entry_invalid_after_compaction :
    (demoAfterCompact.set (str "d") (str "W0")).1 = .ok () ∧
    idxLookup (str "d") demoAfterSet.index = some ⟨0, 32⟩ ∧
    demoAfterSet.file.length = 96 ∧
    decodeExact ((demoAfterSet.file.drop 0).take 32) = some (.Set (str "c") (str "Y0")) ∧
    str "c" ≠ str "d" :=
  ⟨rfl, rfl, rfl, rfl, by decide⟩

/-- C4: durability across reopen fails once a compaction has happened:
in the pre-close engine demoAfterSet, get("d") answers Y0 (reading the
corrupt index entry), while reopening the same log file yields an engine
whose get("d") answers W0. -/
theorem reopen_changes_gets_after_compaction :
    (demoAfterSet.get (str "d")).1 = .ok (some (str "Y0")) ∧
    KvStore.openFrom demoAfterSet.file = .ok demoReopened ∧
    (demoReopened.get (str "d")).1 = .ok (some (str "W0")) ∧
    str "Y0" ≠ str "W0" :=
  ⟨rfl, rfl, rfl, by decide⟩

/-- C7: remove of an absent key fails with KeyNotFound, performs no I/O
and leaves the engine state unchanged; in particular every remove on a
fresh engine fails this way. -/
theorem remove_absent_keynotfound (s : KvStore) (k k2 : Str)
    (h : idxLookup k s.index = none) :
    s.remove k = (.error .KeyNotFound, s) ∧
    freshStore.remove k2 = (.error .KeyNotFound, freshStore) :=
  ⟨remove_absent s k h, remove_absent freshStore k2 rfl⟩

theorem remove_absent_keynotfound_witness :
    idxLookup (str "x") freshStore.index = none ∧
    freshStore.remove (str "x") = (.error .KeyNotFound, freshStore) :=
  ⟨rfl, (remove_absent_keynotfound freshStore (str "x") (str "y") rfl).1⟩

/-- C6: set appends the encoded Set record to the log and advances the
writer by its length; the index gains an entry for the key recording the
pre-append writer position and the record's byte length, other keys
being untouched; exactly a replaced entry's length is added to dirt
(dirt is unchanged when the key was fresh); and when the resulting dirt
reaches THRESHOLD = 8,008,135 the operation runs compaction and, on its
success, resets dirt to zero, while below the threshold it returns the
intermediate state unchanged. -/
theorem set_appends_inserts_charges_and_compacts (s : KvStore) (k v : Str)
    (hs : sortedB s.index = true) :
    (setMid s k v).file = s.file ++ encodeCmd (Command.Set k v) ∧
    (setMid s k v).writerPos = s.writerPos + (encodeCmd (Command.Set k v)).length ∧
    idxLookup k (setMid s k v).index =
      some ⟨s.writerPos, (encodeCmd (Command.Set k v)).length⟩ ∧
    (∀ k2, k2 ≠ k → idxLookup k2 (setMid s k v).index = idxLookup k2 s.index) ∧
    (setMid s k v).dirt = s.dirt +
      (match idxLookup k s.index with | some old => old.length | none => 0) ∧
    THRESHOLD = 8008135 ∧
    ((setMid s k v).dirt < THRESHOLD → s.set k v = (.ok (), setMid s k v)) ∧
    (THRESHOLD ≤ (setMid s k v).dirt →
      s.set k v =
        match (setMid s k v).compact with
        | (.ok _, s3) => (.ok (), { s3 with dirt := 0 })
        | (.error e, s3) => (.error e, s3)) := by
  have hsub : s.writerPos + (encodeCmd (Command.Set k v)).length - s.writerPos =
      (encodeCmd (Command.Set k v)).length := by omega
  refine ⟨rfl, rfl, ?_, ?_, ?_, rfl, ?_, ?_⟩
  · show idxLookup k (idxInsert k _ s.index).2 = _
    rw [idxLookup_idxInsert_self]
    rw [hsub]
  · intro k2 hne
    show idxLookup k2 (idxInsert k _ s.index).2 = _
    rw [idxLookup_idxInsert_ne k k2 _ hne]
  · show (match (idxInsert k _ s.index).1 with
      | some old => s.dirt + old.length
      | none => s.dirt) = _
    rw [idxInsert_fst k _ s.index hs]
    cases idxLookup k s.index <;> simp
  · intro hlow
    rw [set_eq_setMid, if_neg (by omega)]
  · intro hhigh
    rw [set_eq_setMid, if_pos hhigh]

theorem set_appends_witness :
    freshStore.set (str "a") (str "1") =
      (.ok (), setMid freshStore (str "a") (str "1")) :=
  (set_appends_inserts_charges_and_compacts freshStore (str "a") (str "1")
    rfl).2.2.2.2.2.2.1 (by decide)

/-- C10: when the key is present, remove deletes the index entry first;
if the subsequent append/flush of the Rm record fails, the error
surfaces with the in-memory index no longer containing the key while the
log file (and the writer position and dirt counter) are unchanged. -/
theorem remove_deletes_index_before_append (s : KvStore) (k : Str) (p : CommandPosition)
    (hs : sortedB s.index = true) (h : idxLookup k s.index = some p) :
    (s.removeF k false).1 = .error .IoError ∧
    (s.removeF k false).2.file = s.file ∧
    idxLookup k (s.removeF k false).2.index = none ∧
    (∀ k2, k2 ≠ k → idxLookup k2 (s.removeF k false).2.index = idxLookup k2 s.index) ∧
    (s.removeF k false).2.writerPos = s.writerPos ∧
    (s.removeF k false).2.dirt = s.dirt := by
  have h2 : idxRemove k s.index = (some p, (idxRemove k s.index).2) := by
    rw [Prod.ext_iff]
    exact ⟨by rw [idxRemove_fst]; exact h, rfl⟩
  unfold KvStore.removeF
  rw [h2]
  refine ⟨rfl, rfl, ?_, ?_, rfl, rfl⟩
  · exact idxLookup_idxRemove_self k s.index hs
  · intro k2 hne
    exact idxLookup_idxRemove_ne k k2 hne s.index

theorem remove_deletes_index_witness :
    (demoStore.removeF (str "a") false).1 = .error .IoError ∧
    idxLookup (str "a") (demoStore.removeF (str "a") false).2.index = none ∧
    (demoStore.removeF (str "a") false).2.file = demoStore.file :=
  have h := remove_deletes_index_before_append demoStore (str "a") ⟨0, 32⟩ (by decide) rfl
  ⟨h.1, h.2.2.1, h.2.1⟩

/-! ### C5: replay determinism -/

/-- The S6 log of the specification: Set a:=1, Set b:=2, Set a:=3, Rm b. -/
def s6Log : List Nat :=
  encLog [.Set (str "a") (str "1"), .Set (str "b") (str "2"),
          .Set (str "a") (str "3"), .Rm (str "b")]

/-- The engine opened on the S6 log. -/
def s6Store : KvStore := (KvStore.openFrom s6Log).toOption.getD freshStore

/-- C5: opening a log that holds the records cs in order replays them in
file order from offset 0, folding over the records: each Set spanning
[prev, prev + len) inserts {start: prev, length: len} (overwriting any
earlier entry for the key, so the later record wins), each Rm removes
the key, other variants are skipped, and every record advances the
offset by its length; the writer ends at the total length.  In
particular, for the log Set(a,1) Set(b,2) Set(a,3) Rm(b), after open
get("a") returns "3" and get("b") returns absence. -/
theorem replay_in_order_last_wins (cs : List Command) :
    KvStore.openFrom (encLog cs) =
      .ok { file := encLog cs
            index := (replayFold cs ([], 0)).1
            writerPos := (encLog cs).length
            readerPos := 0
            fileCursor := 0
            dirt := 0 } ∧
    (s6Store.get (str "a")).1 = .ok (some (str "3")) ∧
    (s6Store.get (str "b")).1 = .ok none := by
  refine ⟨?_, rfl, rfl⟩
  unfold KvStore.openFrom
  have h2 := replayFold_snd cs ([], 0)
  rw [replayGo_encLog cs [] 0 ((encLog cs).length + 1) (by omega)]
  rcases hfold : replayFold cs ([], 0) with ⟨idx, ep⟩
  rw [hfold] at h2
  simp at h2
  simp [h2]

/-! ### Wire codec (bincode, as used by KvsClient::send and the server) -/

/-- Little-endian fixed-width byte encoding of n in k bytes (bincode's
legacy configuration used by the crate-root serialize/deserialize_from
functions: fixed-width integers, little-endian). -/
def leBytes : Nat → Nat → List Nat
  | 0, _ => []
  | k + 1, n => n % 256 :: leBytes k (n / 256)

/-- Value of a little-endian byte list. -/
def leVal : List Nat → Nat
  | [] => 0
  | b :: bs => b + 256 * leVal bs

/-- Read exactly n bytes from the stream, failing when fewer remain. -/
def splitN (n : Nat) (bs : List Nat) : Option (List Nat × List Nat) :=
  if n ≤ bs.length then some (bs.take n, bs.drop n) else none

/-- bincode encoding of a string: u64 little-endian byte length, then
the UTF-8 bytes. -/
def bencStr (s : Str) : List Nat := leBytes 8 s.length ++ s

def bdecStr (bs : List Nat) : Option (Str × List Nat) :=
  (splitN 8 bs).bind fun p => splitN (leVal p.1) p.2

/-- bincode encoding of a Command: u32 little-endian variant index in
declaration order (Set 0, Get 1, Rm 2, Open 3), then the fields in
order; a PathBuf is serialized like a string. -/
def bencCmd : Command → List Nat
  | .Set k v => leBytes 4 0 ++ bencStr k ++ bencStr v
  | .Get k => leBytes 4 1 ++ bencStr k
  | .Rm k => leBytes 4 2 ++ bencStr k
  | .Open p => leBytes 4 3 ++ bencStr p

def bdecCmd (bs : List Nat) : Option (Command × List Nat) :=
  (splitN 4 bs).bind fun p =>
  match leVal p.1 with
  | 0 => (bdecStr p.2).bind fun k => (bdecStr k.2).map fun v => (Command.Set k.1 v.1, v.2)
  | 1 => (bdecStr p.2).map fun k => (Command.Get k.1, k.2)
  | 2 => (bdecStr p.2).map fun k => (Command.Rm k.1, k.2)
  | 3 => (bdecStr p.2).map fun q => (Command.Open q.1, q.2)
  | _ => none

/-- bincode encoding of a Response: u32 little-endian variant index
(GetOk 0, SetOk 1, RmOk 2, Error 3), then the payload if any. -/
def bencResp : Response → List Nat
  | .GetOk v => leBytes 4 0 ++ bencStr v
  | .SetOk => leBytes 4 1
  | .RmOk => leBytes 4 2
  | .Error m => leBytes 4 3 ++ bencStr m

def bdecResp (bs : List Nat) : Option (Response × List Nat) :=
  (splitN 4 bs).bind fun p =>
  match leVal p.1 with
  | 0 => (bdecStr p.2).map fun v => (Response.GetOk v.1, v.2)
  | 1 => some (Response.SetOk, p.2)
  | 2 => some (Response.RmOk, p.2)
  | 3 => (bdecStr p.2).map fun m => (Response.Error m.1, m.2)
  | _ => none

theorem leBytes_length : ∀ (k n : Nat), (leBytes k n).length = k
  | 0, _ => rfl
  | k + 1, n => by simp [leBytes, leBytes_length k]

theorem leVal_leBytes : ∀ (k n : Nat), n < 256 ^ k → leVal (leBytes k n) = n
  | 0, n, h => by
    simp [Nat.pow_zero] at h
    simp [leBytes, leVal, h]
  | k + 1, n, h => by
    have hdiv : n / 256 < 256 ^ k := by
      rw [Nat.div_lt_iff_lt_mul (by omega)]
      calc n < 256 ^ (k + 1) := h
        _ = 256 ^ k * 256 := by ring
    simp [leBytes, leVal, leVal_leBytes k (n / 256) hdiv]
    omega

theorem splitN_append (n : Nat) (a b : List Nat) (h : a.length = n) :
    splitN n (a ++ b) = some (a, b) := by
  subst h
  unfold splitN
  rw [if_pos (by simp)]
  congr 1
  rw [Prod.ext_iff]
  constructor
  · simp
  · simp

theorem bdecStr_bencStr (s : Str) (t : List Nat) (h : s.length < 2 ^ 64) :
    bdecStr (bencStr s ++ t) = some (s, t) := by
  show bdecStr ((leBytes 8 s.length ++ s) ++ t) = some (s, t)
  rw [List.append_assoc]
  unfold bdecStr
  rw [splitN_append 8 _ _ (leBytes_length 8 s.length)]
  simp only [Option.some_bind]
  rw [leVal_leBytes 8 s.length (by norm_num at h ⊢; omega)]
  exact splitN_append s.length s t rfl

/-- Well-formedness of the strings in a wire command: a Rust String's
byte length fits in a u64 (otherwise bincode's u64 length prefix would
wrap). -/
def wfCmd : Command → Prop
  | .Set k v => k.length < 2 ^ 64 ∧ v.length < 2 ^ 64
  | .Get k => k.length < 2 ^ 64
  | .Rm k => k.length < 2 ^ 64
  | .Open p => p.length < 2 ^ 64

def wfResp : Response → Prop
  | .GetOk v => v.length < 2 ^ 64
  | .SetOk => True
  | .RmOk => True
  | .Error m => m.length < 2 ^ 64

theorem bdecCmd_bencCmd (c : Command) (t : List Nat) (hc : wfCmd c) :
    bdecCmd (bencCmd c ++ t) = some (c, t) := by
  cases c with
  | Set k v =>
    obtain ⟨hk, hv⟩ := hc
    show bdecCmd ((leBytes 4 0 ++ bencStr k ++ bencStr v) ++ t) = _
    rw [List.append_assoc, List.append_assoc]
    unfold bdecCmd
    rw [splitN_append 4 _ _ (leBytes_length 4 0)]
    simp only [Option.some_bind]
    rw [show leVal (leBytes 4 0) = 0 from rfl]
    simp only []
    rw [bdecStr_bencStr k _ hk]
    simp only [Option.some_bind]
    rw [bdecStr_bencStr v t hv]
    rfl
  | Get k =>
    show bdecCmd ((leBytes 4 1 ++ bencStr k) ++ t) = _
    rw [List.append_assoc]
    unfold bdecCmd
    rw [splitN_append 4 _ _ (leBytes_length 4 1)]
    simp only [Option.some_bind]
    rw [show leVal (leBytes 4 1) = 1 from rfl]
    simp only []
    rw [bdecStr_bencStr k t hc]
    rfl
  | Rm k =>
    show bdecCmd ((leBytes 4 2 ++ bencStr k) ++ t) = _
    rw [List.append_assoc]
    unfold bdecCmd
    rw [splitN_append 4 _ _ (leBytes_length 4 2)]
    simp only [Option.some_bind]
    rw [show leVal (leBytes 4 2) = 2 from rfl]
    simp only []
    rw [bdecStr_bencStr k t hc]
    rfl
  | Open p =>
    show bdecCmd ((leBytes 4 3 ++ bencStr p) ++ t) = _
    rw [List.append_assoc]
    unfold bdecCmd
    rw [splitN_append 4 _ _ (leBytes_length 4 3)]
    simp only [Option.some_bind]
    rw [show leVal (leBytes 4 3) = 3 from rfl]
    simp only []
    rw [bdecStr_bencStr p t hc]
    rfl

theorem bdecResp_bencResp (r : Response) (u : List Nat) (hr : wfResp r) :
    bdecResp (bencResp r ++ u) = some (r, u) := by
  cases r with
  | GetOk v =>
    show bdecResp ((leBytes 4 0 ++ bencStr v) ++ u) = _
    rw [List.append_assoc]
    unfold bdecResp
    rw [splitN_append 4 _ _ (leBytes_length 4 0)]
    simp only [Option.some_bind]
    rw [show leVal (leBytes 4 0) = 0 from rfl]
    simp only []
    rw [bdecStr_bencStr v u hr]
    rfl
  | SetOk =>
    show bdecResp (leBytes 4 1 ++ u) = _
    unfold bdecResp
    rw [splitN_append 4 _ _ (leBytes_length 4 1)]
    simp only [Option.some_bind]
    rw [show leVal (leBytes 4 1) = 1 from rfl]
  | RmOk =>
    show bdecResp (leBytes 4 2 ++ u) = _
    unfold bdecResp
    rw [splitN_append 4 _ _ (leBytes_length 4 2)]
    simp only [Option.some_bind]
    rw [show leVal (leBytes 4 2) = 2 from rfl]
  | Error m =>
    show bdecResp ((leBytes 4 3 ++ bencStr m) ++ u) = _
    rw [List.append_assoc]
    unfold bdecResp
    rw [splitN_append 4 _ _ (leBytes_length 4 3)]
    simp only [Option.some_bind]
    rw [show leVal (leBytes 4 3) = 3 from rfl]
    simp only []
    rw [bdecStr_bencStr m u hr]
    rfl

/-- C9: the wire codec round-trips: for every command of the wire schema
and every response, encoding with the bincode codec and then decoding
(from a stream holding the encoded bytes) yields back an equal value,
consuming exactly the encoded bytes. -/
theorem wire_codec_roundtrip (c : Command) (r : Response)
    (hc : wfCmd c) (hr : wfResp r) :
    bdecCmd (bencCmd c) = some (c, []) ∧ bdecResp (bencResp r) = some (r, []) := by
  constructor
  · have h := bdecCmd_bencCmd c [] hc
    rwa [List.append_nil] at h
  · have h := bdecResp_bencResp r [] hr
    rwa [List.append_nil] at h

theorem wire_codec_roundtrip_witness :
    bdecCmd (bencCmd (.Set (str "x") (str "y"))) = some (.Set (str "x") (str "y"), []) ∧
    bdecResp (bencResp (.GetOk (str "y"))) = some (.GetOk (str "y"), []) :=
  wire_codec_roundtrip (.Set (str "x") (str "y")) (.GetOk (str "y"))
    (show (str "x").length < 2 ^ 64 ∧ (str "y").length < 2 ^ 64 from ⟨by decide, by decide⟩)
    (show (str "y").length < 2 ^ 64 by decide)

/-! ### Server dispatcher (src/server_commands.rs) -/

/-- What KvsServer::handle_stream does after writing its responses:
next models returning Ok(()) so the accept loop serves the next
connection; exitProcess models the process::exit call; abort models
returning Err, which the ? in KvsServer::run turns into stopping the
loop; unimpl models the unimplemented!() panic for Open. -/
inductive ServerOutcome
  | next
  | exitProcess (code : Nat)
  | abort (e : KvStoreError)
  | unimpl
deriving DecidableEq, Repr

/-- The thiserror Display strings of KvStoreError, as the server
formats them into Error responses. -/
def errMsg : KvStoreError → Str
  | .IoError => str "Failed to read/write"
  | .SerdeSerError => str "Failed to serialize"
  | .No => str "No path"
  | .KeyNotFound => str "Key not found"
  | .InvalidLogFileCommand => str "Invalid log file command"
  | .InvalidFile => str "Invalid file"
  | .BincodeError => str "Failed to encode/decode"

/-- KvsServer::handle_stream: execute the decoded command against the
engine and write one response; the connection closes afterwards.  Set
errors are propagated by ? without writing a response; Get errors (and
the absent-key case) are converted to Error responses with the loop
continuing; Rm of an absent key writes the Error response and then
calls process::exit(1); other Rm errors write the response and return
the error; Open hits unimplemented!(). -/
def handleStream (s : KvStore) : Command → List Response × ServerOutcome × KvStore
  | .Set k v =>
    match s.set k v with
    | (.ok _, s2) => ([.SetOk], .next, s2)
    | (.error e, s2) => ([], .abort e, s2)
  | .Get k =>
    match s.get k with
    | (.ok (some v), s2) => ([.GetOk v], .next, s2)
    | (.ok none, s2) => ([.Error (errMsg .KeyNotFound)], .next, s2)
    | (.error e, s2) => ([.Error (errMsg e)], .next, s2)
  | .Rm k =>
    match s.remove k with
    | (.ok _, s2) => ([.RmOk], .next, s2)
    | (.error .KeyNotFound, s2) => ([.Error (errMsg .KeyNotFound)], .exitProcess 1, s2)
    | (.error e, s2) => ([.Error (errMsg e)], .abort e, s2)
  | .Open _ => ([], .unimpl, s)

/-- KvsServer::run over a queue of inbound connections, each carrying
one command: handle them in order, stopping as soon as an outcome other
than next occurs. -/
def runServer (s : KvStore) : List Command → List (List Response) × ServerOutcome × KvStore
  | [] => ([], .next, s)
  | c :: rest =>
    match handleStream s c with
    | (resp, .next, s2) =>
      let r := runServer s2 rest
      (resp :: r.1, r.2)
    | (resp, o, s2) => ([resp], o, s2)

/-- C8 counterexample: on a fresh engine, Rm of an absent key makes the
engine return an error, and the server does write the Error response,
but it then terminates the whole process with exit code 1 instead of
continuing the accept loop: a queued second connection is never
served. -/
theorem server_exits_on_rm_absent :
    (freshStore.remove (str "x")).1 = .error .KeyNotFound ∧
    handleStream freshStore (.Rm (str "x")) =
      ([.Error (errMsg .KeyNotFound)], .exitProcess 1, freshStore) ∧
    ServerOutcome.exitProcess 1 ≠ ServerOutcome.next ∧
    (runServer freshStore [.Rm (str "x"), .Get (str "y")]).1 =
      [[.Error (errMsg .KeyNotFound)]] :=
  ⟨rfl, rfl, by decide, rfl⟩

/-- C8 amended: only for Get does the server convert failures to an
Error(string) response and keep serving: a Get whose engine execution
errors, and a Get of an absent key, each produce one Error response with
outcome next.  Rm of an absent key produces the Error("Key not found")
response but then terminates the process with exit code 1. -/
theorem server_error_responses (s s2 : KvStore) (k1 k2 : Str) (e : KvStoreError)
    (hrm : idxLookup k1 s.index = none)
    (hget : s.get k2 = (.error e, s2)) :
    handleStream s (.Rm k1) = ([.Error (errMsg .KeyNotFound)], .exitProcess 1, s) ∧
    handleStream s (.Get k2) = ([.Error (errMsg e)], .next, s2) ∧
    (∀ k3 s3, s.get k3 = (.ok none, s3) →
      handleStream s (.Get k3) = ([.Error (errMsg .KeyNotFound)], .next, s3)) := by
  refine ⟨?_, ?_, ?_⟩
  · have h := remove_absent s k1 hrm
    simp only [handleStream]
    rw [h]
  · simp only [handleStream]
    rw [hget]
  · intro k3 s3 h3
    simp only [handleStream]
    rw [h3]

/-- An engine state whose only index entry points at a byte that is not
a record, so get on that key fails with the serde error. -/
def bogusStore : KvStore :=
  { file := [48], index := [(str "z", ⟨0, 1⟩)],
    writerPos := 1, readerPos := 0, fileCursor := 0, dirt := 0 }

theorem server_error_responses_witness :
    handleStream bogusStore (.Rm (str "x")) =
      ([.Error (errMsg .KeyNotFound)], .exitProcess 1, bogusStore) ∧
    handleStream bogusStore (.Get (str "z")) =
      ([.Error (errMsg .SerdeSerError)], .next, { bogusStore with fileCursor := 1 }) :=
  have h := server_error_responses bogusStore { bogusStore with fileCursor := 1 }
    (str "x") (str "z") .SerdeSerError rfl rfl
  ⟨h.1, h.2.1⟩
